import Mathlib

/-!
Shallow embedding of the core of `src/models/file_processor.py` (class
`FileProcessor` with its pydantic `FileProcessorConfig`) from the
string-replacer repository, together with theorems settling the frozen
claims about it.

Python strings are modelled as `List Char` (a Python `str` is a sequence
of Unicode code points).  File-system reads/writes are externalised: the
content read from the source file is an explicit argument, the written
content is returned, and `os.path.exists` is a boolean oracle argument.
`random.choices` is modelled by an explicit draw oracle `Nat → Nat`;
draw `i` selects index `draw i % alphabet.length`, which covers every
possible sequence of independent uniform choices.
-/

/-- Whitespace as recognised by Python's `str.strip` / regex `\s`
(restricted to the ASCII range; no claim in scope depends on non-ASCII
whitespace). -/
def pyIsSpace (c : Char) : Bool :=
  c == ' ' || c == '\t' || c == '\n' || c == '\r' || c == '\x0b' || c == '\x0c'

/-- Python `string.ascii_uppercase`. -/
def asciiUppercase : List Char := (List.range 26).map (fun i => Char.ofNat (65 + i))

/-- Python `string.ascii_lowercase`. -/
def asciiLowercase : List Char := (List.range 26).map (fun i => Char.ofNat (97 + i))

/-- Python `string.digits`. -/
def digitChars : List Char := (List.range 10).map (fun i => Char.ofNat (48 + i))

/-- The pydantic model `FileProcessorConfig` (fields and defaults from
`file_processor.py` lines 14-20). -/
structure FileProcessorConfig where
  source_file_path : List Char
  find_text : List Char
  replace_text : List Char
  output_file_name : List Char
  max_random_length : Int
deriving DecidableEq

/-- Python `FileProcessorConfig()` — the default-constructed configuration used by
`FileProcessor.__init__`. -/
def defaultFileProcessorConfig : FileProcessorConfig :=
  { source_file_path := [], find_text := [], replace_text := []
    output_file_name := [], max_random_length := 10 }

/-- The `@validator("max_random_length")` classmethod
`validate_max_random_length` (lines 22-37).  pydantic runs it when a value
for the field passes through model validation (e.g. at construction). -/
def validate_max_random_length (v : Int) : Except String Int :=
  if v ≤ 0 then Except.error "Length must be a positive number" else Except.ok v

/-- Result of a setter call on the mutable `FileProcessor`: the (possibly
updated) configuration plus the exception message, if one was raised.
Python leaves `self.config` untouched when an exception fires before the
assignment. -/
structure SetOutcome where
  config : FileProcessorConfig
  error : Option String
deriving DecidableEq

/-- Method `FileProcessor.set_source_file` (lines 47-58): raises
`FileNotFoundError` when `os.path.exists` is false, otherwise stores the
path.  The file-system is the boolean oracle `pathExists`. -/
def set_source_file (pathExists : List Char → Bool) (cfg : FileProcessorConfig)
    (file_path : List Char) : SetOutcome :=
  if pathExists file_path then
    { config := { cfg with source_file_path := file_path }, error := none }
  else
    { config := cfg, error := some ("File not found: " ++ String.mk file_path) }

/-- Method `FileProcessor.set_find_replace_text` (lines 60-68). -/
def set_find_replace_text (cfg : FileProcessorConfig)
    (find_text replace_text : List Char) : FileProcessorConfig :=
  { cfg with find_text := find_text, replace_text := replace_text }

/-- Method `FileProcessor.set_output_file_name` (lines 70-76). -/
def set_output_file_name (cfg : FileProcessorConfig)
    (output_file_name : List Char) : FileProcessorConfig :=
  { cfg with output_file_name := output_file_name }

/-- Method `FileProcessor.set_max_random_length` (lines 78-88).  The body is the
plain attribute assignment `self.config.max_random_length = length`.
`FileProcessorConfig` does not enable pydantic's `validate_assignment`,
so (in pydantic v1 and v2 alike) no validator runs on assignment: the
value is stored unconditionally and no exception is raised, even though
the docstring announces `ValueError` for non-positive lengths. -/
def set_max_random_length (cfg : FileProcessorConfig) (length : Int) : SetOutcome :=
  { config := { cfg with max_random_length := length }, error := none }

/-!
### Python `str.replace`

`content.replace(find, replace)` rewrites every non-overlapping occurrence
of `find`, scanning left to right.  For a non-empty pattern we recurse
with explicit fuel (initially the length of the string) so that the
definition is structurally recursive and kernel-computable; consuming a
match removes at least one character, so fuel `≥ length` is always enough.
For the empty pattern, Python inserts the replacement before every
character and once at the end (`"ab".replace("", "-") == "-a-b-"`). -/

def replaceFuel (a : Char) (f r : List Char) : Nat → List Char → List Char
  | _, [] => []
  | 0, s => s
  | fuel + 1, c :: s =>
    if (a :: f).isPrefixOf (c :: s) then
      r ++ replaceFuel a f r fuel (s.drop f.length)
    else
      c :: replaceFuel a f r fuel s

/-- Python `s.replace(f, r)`. -/
def pyReplace (s f r : List Char) : List Char :=
  match f with
  | [] => r ++ (s.map (fun c => c :: r)).flatten
  | a :: f => replaceFuel a f r s.length s

/-!
### Occurrence decompositions

Apparatus for reasoning about a string containing any number of marked
occurrences of one or two tokens, used to state and prove the net effect
of the rotation's two sequential substitutions. -/

/-- A string decomposed around marked occurrences of a single token `f`:
the text `x0` before the first occurrence, then, for each occurrence, the
text following it up to the next occurrence. -/
def occJoin (f : List Char) (x0 : List Char) (xs : List (List Char)) : List Char :=
  x0 ++ (xs.map (fun x => f ++ x)).flatten

/-- The marked occurrences in `occJoin f x0 xs` are the only occurrences
of `f`: none starts strictly inside `x0` or inside a separator (or spans
a seam), and the final separator contains none. -/
def onlyOccsB (f : List Char) : List Char → List (List Char) → Bool
  | x0, [] => (List.range (x0.length + 1)).all (fun i => ! f.isPrefixOf (x0.drop i))
  | x0, x :: xs =>
      ((List.range x0.length).all
        (fun i => ! f.isPrefixOf ((occJoin f x0 (x :: xs)).drop i))) &&
      onlyOccsB f x xs

/-- A string decomposed around marked occurrences of two tokens: each
occurrence carries a flag — `true` for `tokT`, `false` for `tokF` — and
the text following it. -/
def rotJoin (tokT tokF : List Char) (x0 : List Char) (ps : List (Bool × List Char)) :
    List Char :=
  x0 ++ (ps.map (fun p => (if p.1 then tokT else tokF) ++ p.2)).flatten

/-- Regroup a two-token decomposition around its `true` occurrences only,
folding each `false` occurrence (whose token text is `other`) into the
surrounding separator, so that `occJoin f (groupTrue other x0 ps).1
(groupTrue other x0 ps).2 = rotJoin f other x0 ps`. -/
def groupTrue (other : List Char) : List Char → List (Bool × List Char) →
    List Char × List (List Char)
  | x0, [] => (x0, [])
  | x0, (true, x) :: ps =>
      (x0, (groupTrue other x ps).1 :: (groupTrue other x ps).2)
  | x0, (false, x) :: ps => groupTrue other (x0 ++ (other ++ x)) ps

/-- The candidate alphabet built by `generate_random_string` (lines
118-125): the selected classes concatenated in the fixed order
uppercase, lowercase, digits. -/
def charSet (use_uppercase use_lowercase use_numbers : Bool) : List Char :=
  (if use_uppercase then asciiUppercase else []) ++
  (if use_lowercase then asciiLowercase else []) ++
  (if use_numbers then digitChars else [])

/-- Method `FileProcessor.generate_random_string` (lines 90-131).  `length = none`
models the Python default `None`, which falls back to
`config.max_random_length`.  `random.choices(char_set, k=length)` is
modelled by the draw oracle. -/
def generate_random_string (cfg : FileProcessorConfig) (length : Option Int)
    (use_uppercase use_lowercase use_numbers : Bool) (draw : Nat → Nat) :
    Except String (List Char) :=
  let len := length.getD cfg.max_random_length
  if len ≤ 0 then Except.error "Length must be a positive number"
  else
    let cs := charSet use_uppercase use_lowercase use_numbers
    if h : cs = [] then Except.error "At least one character type must be selected"
    else
      Except.ok ((List.range len.toNat).map
        (fun i => cs.get ⟨draw i % cs.length, Nat.mod_lt _ (List.length_pos.mpr h)⟩))

/-!
### Path helpers (`os.path` on POSIX)
The application only ever forms the output path and the default output
name from these; no claim depends on exotic path forms, but the
definitions follow `posixpath` faithfully. -/

/-- Python `os.path.basename`: everything after the last `/`. -/
def pyBasename (p : List Char) : List Char :=
  (p.reverse.takeWhile (fun c => c != '/')).reverse

/-- Python `os.path.dirname`: `p[:rfind('/') + 1]`, with trailing slashes stripped
unless the head consists only of slashes. -/
def pyDirname (p : List Char) : List Char :=
  let tail := p.reverse.takeWhile (fun c => c != '/')
  let head := p.take (p.length - tail.length)
  if head = [] then []
  else if head.all (fun c => c = '/') then head
  else (head.reverse.dropWhile (fun c => c = '/')).reverse

/-- Python `os.path.join a b` for a single extra component. -/
def pyJoin (a b : List Char) : List Char :=
  if b.head? = some '/' then b
  else if a = [] then b
  else if a.getLast? = some '/' then a ++ b
  else a ++ '/' :: b

/-- Python `os.path.splitext` applied to a basename (no `/` left): split at the
last dot, except that a dot preceded only by dots (as in `.bashrc`)
starts no extension.  Mirrors the `posixpath.splitext` scan. -/
def pySplitext (b : List Char) : List Char × List Char :=
  let tailLen := (b.reverse.takeWhile (fun c => c != '.')).length
  if tailLen = b.length then (b, [])
  else
    let dotIdx := b.length - tailLen - 1
    if (b.take dotIdx).all (fun c => c = '.') then (b, [])
    else (b.take dotIdx, b.drop dotIdx)

/-- The split rule in the words of claim C6 / spec section 4.3: the base
filename splits into stem and extension at the last dot unconditionally
(a filename with no dot yields an empty extension).  Kept separate from
`pySplitext` so the two can be compared; they differ on basenames such as
`.bashrc` whose characters before the last dot are all dots. -/
def splitextLastDotClaim (b : List Char) : List Char × List Char :=
  let tailLen := (b.reverse.takeWhile (fun c => c != '.')).length
  if tailLen = b.length then (b, [])
  else (b.take (b.length - tailLen - 1), b.drop (b.length - tailLen - 1))

/-- Decimal digit string of `n`, zero-padded on the left to width `w` —
the behaviour of `strftime` fields `%Y` (w = 4) and `%m`/`%d` (w = 2). -/
def padNum (w n : Nat) : List Char :=
  let ds := Nat.toDigits 10 n
  List.replicate (w - ds.length) '0' ++ ds

/-- Format `datetime.now().strftime("%Y_%m_%d")`, with the calendar date passed
in explicitly (the code reads the system clock at call time). -/
def fmtDate (y m d : Nat) : List Char :=
  padNum 4 y ++ '_' :: (padNum 2 m ++ '_' :: padNum 2 d)

/-- Method `FileProcessor.get_default_output_name` (lines 133-149): empty string
when no source file is set, otherwise `f"{name}_{today}{ext}"` where
`name, ext = os.path.splitext(os.path.basename(source))`. -/
def get_default_output_name (cfg : FileProcessorConfig) (y m d : Nat) : List Char :=
  if cfg.source_file_path = [] then []
  else
    let base_name := pyBasename cfg.source_file_path
    let ne := pySplitext base_name
    ne.1 ++ '_' :: (fmtDate y m d ++ ne.2)

/-- The output path both processing methods write to:
`os.path.join(os.path.dirname(source), output_name)` (lines 180-183 and
281-284). -/
def outputPath (cfg : FileProcessorConfig) : List Char :=
  pyJoin (pyDirname cfg.source_file_path) cfg.output_file_name

/-!
### First-line password extraction

The method `extract_db_passwords_from_first_line` (lines 192-221) searches
the first line, via `re.search` with `re.IGNORECASE`, for the raw regex
pattern `BY\s+"([^"]+)"` and for the analogous `REPLACE` pattern.  Because `\s` and `[^"]` both exclude the
quote character, the regex engine's greedy matching with backtracking is
deterministic here: a match starting at a given position exists exactly
when the position starts with the key (case-insensitively), followed by
the maximal non-empty whitespace run, a quote, a maximal non-empty run of
non-quote characters, and a quote; the capture is that non-quote run.
`re.search` returns the match at the leftmost such position. -/

/-- Strip `key` from the front of `s`, comparing case-insensitively
(`re.IGNORECASE`; the key letters are ASCII). -/
def dropPrefixCI : List Char → List Char → Option (List Char)
  | [], s => some s
  | _ :: _, [] => none
  | k :: ks, c :: cs => if c.toLower = k.toLower then dropPrefixCI ks cs else none

/-- The `"([^"]+)"` part of the patterns: `s2` must open with a quote,
followed by the maximal (necessarily non-empty) run of non-quote
characters — the capture — and a closing quote. -/
def quotedCapture (s2 : List Char) : Option (List Char) :=
  if s2.head? = some '\"' then
    if s2.tail.takeWhile (fun c => c != '\"') = [] then none
    else if (s2.tail.drop (s2.tail.takeWhile (fun c => c != '\"')).length).head? = some '\"' then
      some (s2.tail.takeWhile (fun c => c != '\"'))
    else none
  else none

/-- Match `KEY\s+"([^"]+)"` anchored at the start of `s`; returns the
capture group: after the key comes the maximal (necessarily non-empty)
whitespace run, then the quoted capture. -/
def matchAt (key s : List Char) : Option (List Char) :=
  (dropPrefixCI key s).bind (fun s1 =>
    if s1.takeWhile pyIsSpace = [] then none
    else quotedCapture (s1.dropWhile pyIsSpace))

/-- Search as `re.search` does for the pattern: the match at the leftmost position. -/
def searchPat (key : List Char) : List Char → Option (List Char)
  | [] => none
  | c :: rest =>
    match matchAt key (c :: rest) with
    | some cap => some cap
    | none => searchPat key rest

/-- The regex key `BY`. -/
def keyBY : List Char := ['B', 'Y']

/-- The regex key `REPLACE`. -/
def keyREPLACE : List Char := ['R', 'E', 'P', 'L', 'A', 'C', 'E']

/-- Method `FileProcessor.extract_db_passwords_from_first_line` (lines 192-221):
`(None, None)` when `content.strip()` is falsy, otherwise the two
independent searches over `content.split('\n')[0]`. -/
def extract_db_passwords_from_first_line (content : List Char) :
    Option (List Char) × Option (List Char) :=
  if content.all pyIsSpace then (none, none)
  else
    let first_line := content.takeWhile (fun c => c != '\n')
    (searchPat keyBY first_line, searchPat keyREPLACE first_line)

/-- Method `FileProcessor.process_file` (lines 151-190).  The source content is
the explicit argument `content`; on success the result carries the output
path and the content written to it. -/
def process_file (cfg : FileProcessorConfig) (content : List Char) :
    Except String (List Char × List Char) :=
  if cfg.source_file_path = [] then Except.error "No source file specified"
  else if cfg.output_file_name = [] then Except.error "No output file name specified"
  else
    let out :=
      if cfg.find_text = [] then content
      else pyReplace content cfg.find_text cfg.replace_text
    Except.ok (outputPath cfg, out)

/-- Method `FileProcessor.process_db_password_file` (lines 223-291).  Note the
Python signature takes only the three character-class flags: there is no
`pre_generated_password` parameter, so the next secret always comes from
`generate_random_string(length=config.max_random_length, ...)`.  The
truthiness test `if not str_sel_file_new_pw or not str_sel_file_cur_pw`
treats both `None` and the empty string as missing. -/
def process_db_password_file (cfg : FileProcessorConfig)
    (use_uppercase use_lowercase use_numbers : Bool) (draw : Nat → Nat)
    (content : List Char) : Except String (List Char × List Char) :=
  if cfg.source_file_path = [] then Except.error "No source file specified"
  else if cfg.output_file_name = [] then Except.error "No output file name specified"
  else
    let pws := extract_db_passwords_from_first_line content
    match pws.1, pws.2 with
    | some new_pw, some cur_pw =>
      if new_pw = [] ∨ cur_pw = [] then
        Except.error "Could not find password patterns in first line"
      else
        match generate_random_string cfg (some cfg.max_random_length)
            use_uppercase use_lowercase use_numbers draw with
        | Except.error e => Except.error e
        | Except.ok gen =>
          Except.ok (outputPath cfg,
            pyReplace (pyReplace content new_pw gen) cur_pw new_pw)
    | _, _ => Except.error "Could not find password patterns in first line"

/-!
### Lemmas about `pyReplace`

The two characteristic properties of Python's leftmost, non-overlapping
`str.replace` with a non-empty pattern: a string without an occurrence is
left unchanged, and the leftmost occurrence is rewritten and the scan
resumes after it. -/

theorem replaceFuel_congr (a : Char) (f r : List Char) :
    ∀ fuel₁ fuel₂ s, s.length ≤ fuel₁ → s.length ≤ fuel₂ →
      replaceFuel a f r fuel₁ s = replaceFuel a f r fuel₂ s := by
  intro fuel₁
  induction fuel₁ with
  | zero =>
    intro fuel₂ s h₁ _
    have hs : s = [] := List.length_eq_zero.mp (Nat.le_zero.mp h₁)
    subst hs
    cases fuel₂ <;> rfl
  | succ n ih =>
    intro fuel₂ s h₁ h₂
    cases s with
    | nil => cases fuel₂ <;> rfl
    | cons c s =>
      cases fuel₂ with
      | zero => simp at h₂
      | succ m =>
        simp only [List.length_cons, Nat.succ_le_succ_iff] at h₁ h₂
        have hd : (s.drop f.length).length = s.length - f.length := List.length_drop _ _
        simp only [replaceFuel]
        by_cases hp : (a :: f).isPrefixOf (c :: s) = true
        · rw [if_pos hp, if_pos hp]
          exact congrArg (r ++ ·) (ih m _ (by omega) (by omega))
        · rw [if_neg hp, if_neg hp]
          exact congrArg (c :: ·) (ih m _ (by omega) (by omega))

theorem replaceFuel_no_occurrence (a : Char) (f r : List Char) :
    ∀ fuel s, s.length ≤ fuel → ¬ (a :: f) <:+: s → replaceFuel a f r fuel s = s := by
  intro fuel
  induction fuel with
  | zero =>
    intro s h₁ _
    have hs : s = [] := List.length_eq_zero.mp (Nat.le_zero.mp h₁)
    subst hs; rfl
  | succ n ih =>
    intro s h₁ hinf
    cases s with
    | nil => rfl
    | cons c s =>
      simp only [replaceFuel]
      have hp : ¬ (a :: f).isPrefixOf (c :: s) = true := by
        intro h
        exact hinf ( List.IsPrefix.isInfix ( List.isPrefixOf_iff_prefix.mp h))
      rw [if_neg hp]
      refine congrArg (c :: ·) (ih s ?_ ?_)
      · simp only [List.length_cons, Nat.succ_le_succ_iff] at h₁; exact h₁
      · intro h; exact hinf (List.infix_cons h)

theorem replaceFuel_leftmost (a : Char) (f r : List Char) :
    ∀ x b fuel, (x ++ (a :: f) ++ b).length ≤ fuel →
      (∀ i < x.length, (a :: f).isPrefixOf ((x ++ (a :: f) ++ b).drop i) = false) →
      replaceFuel a f r fuel (x ++ (a :: f) ++ b) =
        x ++ r ++ replaceFuel a f r b.length b := by
  intro x
  induction x with
  | nil =>
    intro b fuel h₁ _
    simp only [List.nil_append] at h₁ ⊢
    cases fuel with
    | zero => simp at h₁
    | succ n =>
      show replaceFuel a f r (n + 1) (a :: (f ++ b)) = r ++ replaceFuel a f r b.length b
      have hp : (a :: f).isPrefixOf (a :: (f ++ b)) = true :=
        List.isPrefixOf_iff_prefix.mpr (List.prefix_append (a :: f) b)
      simp only [replaceFuel, if_pos hp, List.drop_left f b]
      refine congrArg (r ++ ·) (replaceFuel_congr a f r n b.length b ?_ le_rfl)
      simp only [List.length_cons, List.length_append, Nat.succ_le_succ_iff] at h₁
      omega
  | cons d x ih =>
    intro b fuel h₁ hleft
    cases fuel with
    | zero => simp at h₁
    | succ n =>
      have h0 := hleft 0 (by simp)
      simp only [List.drop_zero] at h0
      show replaceFuel a f r (n + 1) (d :: (x ++ (a :: f) ++ b)) =
        d :: (x ++ r ++ replaceFuel a f r b.length b)
      simp only [replaceFuel]
      have h0' : ¬ (a :: f).isPrefixOf (d :: (x ++ (a :: f) ++ b)) = true := by
        simp only [List.cons_append] at h0; rw [h0]; simp
      rw [if_neg h0']
      refine congrArg (d :: ·) (ih b n ?_ ?_)
      · simp only [List.cons_append, List.length_cons, Nat.succ_le_succ_iff] at h₁
        simpa using h₁
      · intro i hi
        have := hleft (i + 1) (by simp only [List.length_cons]; omega)
        simpa using this

/-- A string with no occurrence of the (non-empty) pattern is unchanged. -/
theorem pyReplace_no_occurrence (s f r : List Char) (hf : f ≠ []) (h : ¬ f <:+: s) :
    pyReplace s f r = s := by
  cases f with
  | nil => exact absurd rfl hf
  | cons a f => exact replaceFuel_no_occurrence a f r s.length s le_rfl h

/-- The leftmost occurrence of the pattern is rewritten and the scan
resumes after it (so occurrences never overlap). -/
theorem pyReplace_leftmost (f r x b : List Char) (hf : f ≠ [])
    (hleft : ∀ i < x.length, f.isPrefixOf ((x ++ f ++ b).drop i) = false) :
    pyReplace (x ++ f ++ b) f r = x ++ r ++ pyReplace b f r := by
  cases f with
  | nil => exact absurd rfl hf
  | cons a f => exact replaceFuel_leftmost a f r x b _ le_rfl hleft

/-!
### Lemmas about occurrence decompositions -/

theorem occJoin_nil (f x0 : List Char) : occJoin f x0 [] = x0 := by
  simp [occJoin]

theorem occJoin_cons (f x0 x : List Char) (xs : List (List Char)) :
    occJoin f x0 (x :: xs) = x0 ++ (f ++ occJoin f x xs) := by
  simp [occJoin, List.append_assoc]

theorem not_infix_of_all_drops (f x0 : List Char)
    (h : ((List.range (x0.length + 1)).all
      (fun i => ! f.isPrefixOf (x0.drop i))) = true) :
    ¬ f <:+: x0 := by
  rintro ⟨s, t, rfl⟩
  have hmem : s.length ∈ List.range ((s ++ f ++ t).length + 1) :=
    List.mem_range.mpr (by simp; omega)
  have hi := List.all_eq_true.mp h s.length hmem
  rw [show (s ++ f ++ t).drop s.length = f ++ t from by
    rw [List.append_assoc]; exact List.drop_left s (f ++ t)] at hi
  rw [ List.isPrefixOf_iff_prefix.mpr (List.prefix_append f t)] at hi
  simp at hi

/-- Replacing a token in a string whose marked occurrences of the token
are its only occurrences substitutes exactly those occurrences: this is
the all-occurrences, leftmost-first behaviour of `str.replace` on a fully
decomposed string. -/
theorem pyReplace_occJoin (f r : List Char) (hf : f ≠ []) :
    ∀ (x0 : List Char) (xs : List (List Char)), onlyOccsB f x0 xs = true →
      pyReplace (occJoin f x0 xs) f r = occJoin r x0 xs := by
  intro x0 xs
  induction xs generalizing x0 with
  | nil =>
    intro h
    rw [occJoin_nil, occJoin_nil]
    exact pyReplace_no_occurrence x0 f r hf
      (not_infix_of_all_drops f x0 (by simpa [onlyOccsB] using h))
  | cons x xs ih =>
    intro h
    rw [onlyOccsB, Bool.and_eq_true] at h
    have hleft : ∀ i < x0.length,
        f.isPrefixOf ((x0 ++ f ++ occJoin f x xs).drop i) = false := by
      intro i hi
      have hh := List.all_eq_true.mp h.1 i (List.mem_range.mpr hi)
      simpa [occJoin_cons, List.append_assoc] using hh
    have h1 := pyReplace_leftmost f r x0 (occJoin f x xs) hf hleft
    rw [ih x h.2] at h1
    rw [occJoin_cons, occJoin_cons]
    simpa [List.append_assoc] using h1

theorem rotJoin_nil (a b x0 : List Char) : rotJoin a b x0 [] = x0 := by
  simp [rotJoin]

theorem rotJoin_cons (a b x0 : List Char) (t : Bool) (x : List Char)
    (ps : List (Bool × List Char)) :
    rotJoin a b x0 ((t, x) :: ps) =
      x0 ++ ((if t then a else b) ++ rotJoin a b x ps) := by
  simp [rotJoin, List.append_assoc]

/-- Swapping the two tokens is the same as negating every flag. -/
theorem rotJoin_negMap (a b x0 : List Char) (ps : List (Bool × List Char)) :
    rotJoin a b x0 (ps.map (fun p => (!p.1, p.2))) = rotJoin b a x0 ps := by
  induction ps generalizing x0 with
  | nil => simp [rotJoin_nil]
  | cons p ps ih =>
    rcases p with ⟨t, x⟩
    cases t <;> simp [List.map_cons, rotJoin_cons, ih]

/-- Correctness of the regrouping: folding the `false` occurrences into
the separators and marking only the `true` ones reassembles to the same
string, for any choice of the `true` token `f`. -/
theorem occJoin_groupTrue (f other : List Char) :
    ∀ (ps : List (Bool × List Char)) (x0 : List Char),
      occJoin f (groupTrue other x0 ps).1 (groupTrue other x0 ps).2 =
        rotJoin f other x0 ps := by
  intro ps
  induction ps with
  | nil =>
    intro x0
    simp [groupTrue, occJoin_nil, rotJoin_nil]
  | cons p ps ih =>
    intro x0
    rcases p with ⟨t, x⟩
    cases t
    · rw [show groupTrue other x0 ((false, x) :: ps) =
          groupTrue other (x0 ++ (other ++ x)) ps from rfl]
      rw [ih, rotJoin_cons]
      simp [rotJoin, List.append_assoc]
    · rw [show groupTrue other x0 ((true, x) :: ps) =
          (x0, (groupTrue other x ps).1 :: (groupTrue other x ps).2) from rfl]
      rw [occJoin_cons, ih, rotJoin_cons]
      simp

/-!
### Lemmas about the first-line password extraction -/

theorem drop_takeWhile_length (p : Char → Bool) (l : List Char) :
    l.drop (l.takeWhile p).length = l.dropWhile p := by
  calc l.drop (l.takeWhile p).length
      = (l.takeWhile p ++ l.dropWhile p).drop (l.takeWhile p).length := by
        rw [List.takeWhile_append_dropWhile]
    _ = l.dropWhile p := List.drop_left _ _

theorem dropPrefixCI_eq_some_iff :
    ∀ key s s1, dropPrefixCI key s = some s1 ↔
      ∃ ks, s = ks ++ s1 ∧ ks.map Char.toLower = key.map Char.toLower := by
  intro key
  induction key with
  | nil =>
    intro s s1
    simp only [dropPrefixCI, Option.some.injEq, List.map_nil]
    constructor
    · intro h
      exact ⟨[], by simp [h], rfl⟩
    · rintro ⟨ks, rfl, hks⟩
      have hks0 : ks = [] := List.map_eq_nil_iff.mp hks
      subst hks0
      simp
  | cons k ks ih =>
    intro s s1
    cases s with
    | nil =>
      simp only [dropPrefixCI]
      constructor
      · intro h; cases h
      · rintro ⟨l, hl, hmap⟩
        obtain ⟨rfl, rfl⟩ := List.append_eq_nil.mp hl.symm
        simp at hmap
    | cons c cs =>
      simp only [dropPrefixCI]
      by_cases hc : c.toLower = k.toLower
      · rw [if_pos hc, ih cs s1]
        constructor
        · rintro ⟨l, rfl, hmap⟩
          exact ⟨c :: l, rfl, by simp [hmap, hc]⟩
        · rintro ⟨l, hl, hmap⟩
          cases l with
          | nil => simp at hmap
          | cons x xs =>
            simp only [List.cons_append, List.cons.injEq] at hl
            rcases hl with ⟨rfl, rfl⟩
            simp only [List.map_cons, List.cons.injEq] at hmap
            exact ⟨xs, rfl, hmap.2⟩
      · rw [if_neg hc]
        constructor
        · intro h; cases h
        · rintro ⟨l, hl, hmap⟩
          cases l with
          | nil => simp at hmap
          | cons x xs =>
            simp only [List.cons_append, List.cons.injEq] at hl
            rcases hl with ⟨rfl, rfl⟩
            simp only [List.map_cons, List.cons.injEq] at hmap
            exact absurd hmap.1 hc

theorem quotedCapture_eq_some_iff (s2 cap : List Char) :
    quotedCapture s2 = some cap ↔
      ∃ rest, s2 = '\"' :: (cap ++ '\"' :: rest) ∧ cap ≠ [] ∧ '\"' ∉ cap := by
  constructor
  · intro h
    unfold quotedCapture at h
    cases s2 with
    | nil => simp at h
    | cons q s3 =>
      simp only [List.head?_cons, Option.some.injEq, List.tail_cons] at h
      by_cases hq : q = '\"'
      · rw [if_pos hq] at h
        subst hq
        by_cases hcap : s3.takeWhile (fun c => c != '\"') = []
        · rw [if_pos hcap] at h; cases h
        · rw [if_neg hcap, drop_takeWhile_length] at h
          rcases hd3 : s3.dropWhile (fun c => c != '\"') with _ | ⟨q2, rest⟩
          · rw [hd3] at h; simp at h
          · rw [hd3] at h
            simp only [List.head?_cons, Option.some.injEq] at h
            by_cases hq2 : q2 = '\"'
            · rw [if_pos hq2] at h
              injection h with h
              subst h
              subst hq2
              refine ⟨rest, ?_, hcap, ?_⟩
              · have : s3 = s3.takeWhile (fun c => c != '\"') ++ '\"' :: rest := by
                  conv_lhs => rw [← List.takeWhile_append_dropWhile
                    (p := fun c => c != '\"') (l := s3)]
                  rw [hd3]
                exact congrArg ('\"' :: ·) this
              · intro hmem
                have := List.mem_takeWhile_imp hmem
                simp at this
            · rw [if_neg hq2] at h; cases h
      · rw [if_neg hq] at h; cases h
  · rintro ⟨rest, rfl, hcap, hcapq⟩
    unfold quotedCapture
    have htw : (cap ++ '\"' :: rest).takeWhile (fun c => c != '\"') = cap := by
      rw [List.takeWhile_append_of_pos (by
        intro x hx
        simp only [bne_iff_ne, ne_eq]
        intro hxq
        exact hcapq (hxq ▸ hx))]
      simp [List.takeWhile_cons]
    simp only [List.head?_cons, List.tail_cons, htw, if_pos rfl, if_neg hcap]
    rw [show (cap ++ '\"' :: rest).drop cap.length = '\"' :: rest from List.drop_left cap _]
    simp

theorem matchAt_eq_some_iff (key s cap : List Char) :
    matchAt key s = some cap ↔
      ∃ ks ws rest, s = ks ++ (ws ++ '\"' :: (cap ++ '\"' :: rest)) ∧
        ks.map Char.toLower = key.map Char.toLower ∧
        ws ≠ [] ∧ ws.all pyIsSpace ∧ cap ≠ [] ∧ '\"' ∉ cap := by
  constructor
  · intro h
    unfold matchAt at h
    rcases hd : dropPrefixCI key s with _ | s1
    · rw [hd] at h; cases h
    · rw [hd, Option.some_bind] at h
      obtain ⟨ks, rfl, hks⟩ := (dropPrefixCI_eq_some_iff key _ s1).mp hd
      by_cases hws : s1.takeWhile pyIsSpace = []
      · rw [if_pos hws] at h; cases h
      · rw [if_neg hws] at h
        obtain ⟨rest, hdec, hcap, hcapq⟩ := (quotedCapture_eq_some_iff _ cap).mp h
        refine ⟨ks, s1.takeWhile pyIsSpace, rest, ?_, hks, hws, ?_, hcap, hcapq⟩
        · have hs1 : s1 = s1.takeWhile pyIsSpace ++ '\"' :: (cap ++ '\"' :: rest) := by
            conv_lhs => rw [← List.takeWhile_append_dropWhile (p := pyIsSpace) (l := s1)]
            rw [hdec]
          exact congrArg (ks ++ ·) hs1
        · simp only [List.all_eq_true]
          intro x hx
          exact List.mem_takeWhile_imp hx
  · rintro ⟨ks, ws, rest, rfl, hks, hws, hwsall, hcap, hcapq⟩
    unfold matchAt
    rw [show dropPrefixCI key (ks ++ (ws ++ '\"' :: (cap ++ '\"' :: rest))) =
        some (ws ++ '\"' :: (cap ++ '\"' :: rest)) from
      (dropPrefixCI_eq_some_iff key _ _).mpr ⟨ks, rfl, hks⟩, Option.some_bind]
    have htw : (ws ++ '\"' :: (cap ++ '\"' :: rest)).takeWhile pyIsSpace = ws := by
      rw [List.takeWhile_append_of_pos (List.all_eq_true.mp hwsall)]
      simp [List.takeWhile_cons, pyIsSpace]
    have hdw : (ws ++ '\"' :: (cap ++ '\"' :: rest)).dropWhile pyIsSpace =
        '\"' :: (cap ++ '\"' :: rest) := by
      rw [← drop_takeWhile_length, htw, List.drop_left]
    rw [htw, hdw, if_neg hws]
    exact (quotedCapture_eq_some_iff _ cap).mpr ⟨rest, rfl, hcap, hcapq⟩

theorem matchAt_nil (key : List Char) : matchAt key [] = none := by
  cases key <;> rfl

theorem searchPat_eq_some_iff (key : List Char) :
    ∀ l cap, searchPat key l = some cap ↔
      ∃ i, matchAt key (l.drop i) = some cap ∧ ∀ j < i, matchAt key (l.drop j) = none := by
  intro l
  induction l with
  | nil =>
    intro cap
    constructor
    · intro h; cases h
    · rintro ⟨i, hm, _⟩
      rw [List.drop_nil, matchAt_nil] at hm
      cases hm
  | cons c l ih =>
    intro cap
    simp only [searchPat]
    rcases hm : matchAt key (c :: l) with _ | cap'
    · simp only
      rw [ih cap]
      constructor
      · rintro ⟨i, hmi, hni⟩
        refine ⟨i + 1, by simpa using hmi, ?_⟩
        intro j hj
        cases j with
        | zero => simpa using hm
        | succ j => simpa using hni j (by omega)
      · rintro ⟨i, hmi, hni⟩
        cases i with
        | zero => rw [List.drop_zero, hm] at hmi; cases hmi
        | succ i =>
          refine ⟨i, by simpa using hmi, ?_⟩
          intro j hj
          have := hni (j + 1) (by omega)
          simpa using this
    · simp only [Option.some.injEq]
      constructor
      · rintro rfl
        exact ⟨0, by simpa using hm, by omega⟩
      · rintro ⟨i, hmi, hni⟩
        cases i with
        | zero =>
          rw [List.drop_zero, hm] at hmi
          exact Option.some.inj hmi
        | succ i =>
          have := hni 0 (by omega)
          rw [List.drop_zero, hm] at this
          cases this

/-- Any capture the search returns is a non-empty run of non-quote
characters. -/
theorem searchPat_some_sound (key l cap : List Char) (h : searchPat key l = some cap) :
    cap ≠ [] ∧ '\"' ∉ cap := by
  obtain ⟨i, hm, _⟩ := (searchPat_eq_some_iff key l cap).mp h
  obtain ⟨_, _, _, _, _, _, _, hcap, hcapq⟩ := (matchAt_eq_some_iff key _ cap).mp hm
  exact ⟨hcap, hcapq⟩

/-!
### Lemmas about `pySplitext` -/

theorem takeWhile_append_stop (p : Char → Bool) (l : List Char) (y : Char) (m : List Char)
    (hl : ∀ x ∈ l, p x = true) (hy : p y = false) : (l ++ y :: m).takeWhile p = l := by
  rw [List.takeWhile_append_of_pos hl]
  simp [List.takeWhile_cons, hy]

/-- A basename without a dot is all stem. -/
theorem pySplitext_no_dot (b : List Char) (h : '.' ∉ b) : pySplitext b = (b, []) := by
  unfold pySplitext
  have htw : b.reverse.takeWhile (fun c => c != '.') = b.reverse := by
    rw [List.takeWhile_eq_self_iff]
    intro a ha
    have : a ∈ b := List.mem_reverse.mp ha
    simp only [bne_iff_ne, ne_eq]
    intro hd
    exact h (hd ▸ this)
  rw [htw, List.length_reverse]
  simp

/-- A basename of the form `stem.ext` with a dot-free `ext` and at least
one non-dot character in `stem` splits at that (last) dot. -/
theorem pySplitext_split (stem ext : List Char) (hext : '.' ∉ ext)
    (hstem : ∃ c ∈ stem, c ≠ '.') :
    pySplitext (stem ++ '.' :: ext) = (stem, '.' :: ext) := by
  unfold pySplitext
  have hrev : (stem ++ '.' :: ext).reverse = ext.reverse ++ '.' :: stem.reverse := by
    simp
  have htw : (stem ++ '.' :: ext).reverse.takeWhile (fun c => c != '.') = ext.reverse := by
    rw [hrev]
    refine takeWhile_append_stop _ _ _ _ ?_ (by simp)
    intro x hx
    have : x ∈ ext := List.mem_reverse.mp hx
    simp only [bne_iff_ne, ne_eq]
    intro hd
    exact hext (hd ▸ this)
  rw [htw, List.length_reverse]
  have hlen : (stem ++ '.' :: ext).length = stem.length + 1 + ext.length := by
    simp; omega
  rw [if_neg (by omega)]
  have hidx : (stem ++ '.' :: ext).length - ext.length - 1 = stem.length := by omega
  rw [hidx]
  dsimp only
  rw [List.take_left, List.drop_left]
  rw [if_neg ?_]
  obtain ⟨c, hc, hcd⟩ := hstem
  simp only [List.all_eq_true, decide_eq_true_eq, not_forall]
  exact ⟨c, hc, hcd⟩

/-- A basename of the form `stem.ext` whose `stem` consists only of dots
(as in `.bashrc` or `..gitignore`) gets no extension at all. -/
theorem pySplitext_all_dots (stem ext : List Char) (hext : '.' ∉ ext)
    (hstem : ∀ c ∈ stem, c = '.') :
    pySplitext (stem ++ '.' :: ext) = (stem ++ '.' :: ext, []) := by
  unfold pySplitext
  have hrev : (stem ++ '.' :: ext).reverse = ext.reverse ++ '.' :: stem.reverse := by
    simp
  have htw : (stem ++ '.' :: ext).reverse.takeWhile (fun c => c != '.') = ext.reverse := by
    rw [hrev]
    refine takeWhile_append_stop _ _ _ _ ?_ (by simp)
    intro x hx
    have : x ∈ ext := List.mem_reverse.mp hx
    simp only [bne_iff_ne, ne_eq]
    intro hd
    exact hext (hd ▸ this)
  rw [htw, List.length_reverse]
  have hlen : (stem ++ '.' :: ext).length = stem.length + 1 + ext.length := by
    simp; omega
  rw [if_neg (by omega)]
  have hidx : (stem ++ '.' :: ext).length - ext.length - 1 = stem.length := by omega
  rw [hidx]
  dsimp only
  rw [List.take_left]
  rw [if_pos ?_]
  simp only [List.all_eq_true, decide_eq_true_eq]
  exact hstem

/-!
### Shared helper lemmas about extraction and rotation -/

/-- A `new_password` returned by the extractor is a non-empty quote-free
string. -/
theorem extract_fst_sound (content s : List Char)
    (h : (extract_db_passwords_from_first_line content).1 = some s) :
    s ≠ [] ∧ '\"' ∉ s := by
  unfold extract_db_passwords_from_first_line at h
  by_cases hsp : content.all pyIsSpace
  · rw [if_pos hsp] at h; cases h
  · rw [if_neg hsp] at h
    exact searchPat_some_sound _ _ _ h

/-- A `current_password` returned by the extractor is a non-empty
quote-free string. -/
theorem extract_snd_sound (content s : List Char)
    (h : (extract_db_passwords_from_first_line content).2 = some s) :
    s ≠ [] ∧ '\"' ∉ s := by
  unfold extract_db_passwords_from_first_line at h
  by_cases hsp : content.all pyIsSpace
  · rw [if_pos hsp] at h; cases h
  · rw [if_neg hsp] at h
    exact searchPat_some_sound _ _ _ h

/-- On the happy path the rotation processor returns the output path and
the content obtained by the two sequential substitutions, the secret
always coming from `generate_random_string`. -/
theorem process_db_password_file_ok (cfg : FileProcessorConfig)
    (u l d : Bool) (draw : Nat → Nat) (content n c g : List Char)
    (hsrc : cfg.source_file_path ≠ []) (hout : cfg.output_file_name ≠ [])
    (hex : extract_db_passwords_from_first_line content = (some n, some c))
    (hgen : generate_random_string cfg (some cfg.max_random_length) u l d draw =
      Except.ok g) :
    process_db_password_file cfg u l d draw content =
      Except.ok (outputPath cfg, pyReplace (pyReplace content n g) c n) := by
  have hn := extract_fst_sound content n (by rw [hex])
  have hc := extract_snd_sound content c (by rw [hex])
  unfold process_db_password_file
  rw [if_neg hsrc, if_neg hout, hex]
  dsimp only
  rw [if_neg (by simp only [not_or]; exact ⟨hn.1, hc.1⟩), hgen]

/-!
### The claims -/

/-- C3: the claim says `set_secret_length(n)` with `n ≤ 0` fails with
InvalidArgument and keeps the previous positive value.  The code instead
assigns through pydantic attribute assignment, which runs no validator, so
`0` is silently stored — contradicting the method's own docstring and
`test_set_max_random_length_invalid`.  This theorem exhibits the
divergence: the setter reports no error and stores `0`, while the declared
validator for the very same field rejects `0`. -/
theorem c3_set_max_random_length_bug :
    (set_max_random_length defaultFileProcessorConfig 0).error = none ∧
    (set_max_random_length defaultFileProcessorConfig 0).config.max_random_length = 0 ∧
    validate_max_random_length 0 = Except.error "Length must be a positive number" :=
  ⟨rfl, rfl, rfl⟩

/-- C9: `set_source(path)` fails with NotFound and leaves the stored path
(indeed the whole configuration) unchanged when the path does not exist,
and stores the path when it exists. -/
theorem c9_set_source_file_spec (pathExists : List Char → Bool)
    (cfg : FileProcessorConfig) (p : List Char) :
    (pathExists p = false →
      set_source_file pathExists cfg p =
        { config := cfg, error := some ("File not found: " ++ String.mk p) }) ∧
    (pathExists p = true →
      set_source_file pathExists cfg p =
        { config := { cfg with source_file_path := p }, error := none }) := by
  constructor
  · intro h
    unfold set_source_file
    rw [h]
    simp
  · intro h
    unfold set_source_file
    rw [h]
    simp

/-- Witness for C9 at a concrete path and file-system. -/
theorem c9_set_source_file_witness :
    set_source_file (fun _ => false) defaultFileProcessorConfig ['x'] =
      { config := defaultFileProcessorConfig,
        error := some ("File not found: " ++ String.mk ['x']) } ∧
    set_source_file (fun _ => true) defaultFileProcessorConfig ['x'] =
      { config := { defaultFileProcessorConfig with source_file_path := ['x'] },
        error := none } :=
  ⟨(c9_set_source_file_spec (fun _ => false) defaultFileProcessorConfig ['x']).1 rfl,
   (c9_set_source_file_spec (fun _ => true) defaultFileProcessorConfig ['x']).2 rfl⟩

/-- C8: `generate` fails with InvalidArgument whenever the effective
length is non-positive, and whenever no character class is selected (the
alphabet union is empty). -/
theorem c8_generate_error_cases (cfg : FileProcessorConfig) (length : Option Int)
    (u l d : Bool) (draw : Nat → Nat) :
    (length.getD cfg.max_random_length ≤ 0 →
      generate_random_string cfg length u l d draw =
        Except.error "Length must be a positive number") ∧
    (0 < length.getD cfg.max_random_length → u = false → l = false → d = false →
      generate_random_string cfg length u l d draw =
        Except.error "At least one character type must be selected") := by
  constructor
  · intro h
    unfold generate_random_string
    dsimp only
    rw [if_pos h]
  · intro h hu hl hd
    subst hu; subst hl; subst hd
    unfold generate_random_string
    dsimp only
    rw [if_neg (by omega), dif_pos (show charSet false false false = [] from rfl)]

/-- Witness for C8 at concrete arguments. -/
theorem c8_generate_error_cases_witness :
    generate_random_string defaultFileProcessorConfig (some 0) true true true
      (fun _ => 0) = Except.error "Length must be a positive number" ∧
    generate_random_string defaultFileProcessorConfig (some 3) false false false
      (fun _ => 0) = Except.error "At least one character type must be selected" :=
  ⟨(c8_generate_error_cases defaultFileProcessorConfig (some 0) true true true
      (fun _ => 0)).1 (by decide),
   (c8_generate_error_cases defaultFileProcessorConfig (some 3) false false false
      (fun _ => 0)).2 (by decide) rfl rfl rfl⟩

/-- C7: with a positive length and at least one class selected, `generate`
succeeds with a string of exactly that length whose characters all lie in
the union of the selected classes, the alphabet being the classes
concatenated in the fixed order uppercase, lowercase, digits. -/
theorem c7_generate_success (cfg : FileProcessorConfig) (len : Int)
    (u l d : Bool) (draw : Nat → Nat)
    (hlen : 0 < len) (hflag : u = true ∨ l = true ∨ d = true) :
    ∃ s, generate_random_string cfg (some len) u l d draw = Except.ok s ∧
      s.length = len.toNat ∧ (∀ ch ∈ s, ch ∈ charSet u l d) ∧
      charSet u l d =
        (if u then asciiUppercase else []) ++ (if l then asciiLowercase else []) ++
          (if d then digitChars else []) := by
  have hcs : charSet u l d ≠ [] := by
    cases u <;> cases l <;> cases d
    · simp at hflag
    all_goals decide
  refine ⟨(List.range len.toNat).map
      (fun i => (charSet u l d).get
        ⟨draw i % (charSet u l d).length, Nat.mod_lt _ (List.length_pos.mpr hcs)⟩),
    ?_, ?_, ?_, rfl⟩
  · unfold generate_random_string
    dsimp only
    simp only [Option.getD_some]
    rw [if_neg (by omega), dif_neg hcs]
  · simp
  · intro ch hch
    simp only [List.mem_map] at hch
    obtain ⟨i, _, rfl⟩ := hch
    exact List.get_mem _ _ _

/-- Witness for C7 at concrete arguments (uppercase only, length 3,
constant draw 0 selects character 65 = `A`). -/
theorem c7_generate_success_witness :
    generate_random_string defaultFileProcessorConfig (some 3) true false false
      (fun _ => 0) = Except.ok "AAA".data ∧
    "AAA".data.length = (3 : Int).toNat ∧
    ∀ ch ∈ "AAA".data, ch ∈ charSet true false false := by
  obtain ⟨s, h1, h2, h3, _⟩ := c7_generate_success defaultFileProcessorConfig 3
    true false false (fun _ => 0) (by decide) (Or.inl rfl)
  have hs : (Except.ok s : Except String (List Char)) = Except.ok "AAA".data :=
    h1.symm.trans (by rfl)
  injection hs with hs
  subst hs
  exact ⟨h1, h2, h3⟩

/-- C10: whenever the extractor returns a password, that string is
non-empty and contains no double quote; in particular `some ""` is never
returned, so the rotation processor's truthiness check cannot be passed
by an empty extracted password. -/
theorem c10_extracted_password_sound (content : List Char) :
    ((extract_db_passwords_from_first_line content).1 ≠ some []) ∧
    ((extract_db_passwords_from_first_line content).2 ≠ some []) ∧
    (∀ s, (extract_db_passwords_from_first_line content).1 = some s ∨
          (extract_db_passwords_from_first_line content).2 = some s →
      s ≠ [] ∧ '\"' ∉ s) := by
  have main : ∀ s, (extract_db_passwords_from_first_line content).1 = some s ∨
      (extract_db_passwords_from_first_line content).2 = some s →
      s ≠ [] ∧ '\"' ∉ s := by
    intro s h
    rcases h with h | h
    · exact extract_fst_sound content s h
    · exact extract_snd_sound content s h
  exact ⟨fun h => (main [] (Or.inl h)).1 rfl, fun h => (main [] (Or.inr h)).1 rfl, main⟩

/-- Witness for C10 at a concrete content. -/
theorem c10_extracted_password_sound_witness :
    (['x'] : List Char) ≠ [] ∧ '\"' ∉ (['x'] : List Char) :=
  (c10_extracted_password_sound "BY \"x\" REPLACE \"y\"".data).2.2 ['x']
    (Or.inl (by decide))

/-- C5: the extractor returns `(None, None)` on empty or whitespace-only
content; otherwise it inspects only the first line (the part before the
first newline), so later lines never contribute a match; each search
independently returns the capture of the leftmost match of
`KEY\s+"([^"]+)"` (`KEY` compared case-insensitively), `none` if there is
no match. -/
theorem c5_extract_first_line_spec :
    (∀ content : List Char, content.all pyIsSpace = true →
      extract_db_passwords_from_first_line content = (none, none)) ∧
    (∀ l rest : List Char, '\n' ∉ l → (l ++ '\n' :: rest).all pyIsSpace = false →
      extract_db_passwords_from_first_line (l ++ '\n' :: rest) =
        (searchPat keyBY l, searchPat keyREPLACE l)) ∧
    (∀ key l cap : List Char, searchPat key l = some cap ↔
      ∃ i, matchAt key (l.drop i) = some cap ∧
        ∀ j < i, matchAt key (l.drop j) = none) ∧
    (∀ key s cap : List Char, matchAt key s = some cap ↔
      ∃ ks ws rest, s = ks ++ (ws ++ '\"' :: (cap ++ '\"' :: rest)) ∧
        ks.map Char.toLower = key.map Char.toLower ∧
        ws ≠ [] ∧ ws.all pyIsSpace ∧ cap ≠ [] ∧ '\"' ∉ cap) := by
  refine ⟨?_, ?_, fun key l cap => searchPat_eq_some_iff key l cap,
    fun key s cap => matchAt_eq_some_iff key s cap⟩
  · intro content h
    unfold extract_db_passwords_from_first_line
    rw [if_pos h]
  · intro l rest hnl hsp
    unfold extract_db_passwords_from_first_line
    rw [if_neg (by rw [hsp]; simp)]
    have htw : (l ++ '\n' :: rest).takeWhile (fun c => c != '\n') = l := by
      refine takeWhile_append_stop _ _ _ _ ?_ (by simp)
      intro x hx
      simp only [bne_iff_ne, ne_eq]
      intro he
      exact hnl (he ▸ hx)
    rw [htw]

/-- Witness for C5 at the specification's own example. -/
theorem c5_extract_first_line_spec_witness :
    extract_db_passwords_from_first_line
      "ALTER USER u IDENTIFIED BY \"newpass123\" REPLACE \"oldpass456\";\nSELECT 1;".data =
      (some "newpass123".data, some "oldpass456".data) := by
  have h := c5_extract_first_line_spec.2.1
    "ALTER USER u IDENTIFIED BY \"newpass123\" REPLACE \"oldpass456\";".data
    "SELECT 1;".data (by decide) (by decide)
  have heq :
      "ALTER USER u IDENTIFIED BY \"newpass123\" REPLACE \"oldpass456\";\nSELECT 1;".data =
      "ALTER USER u IDENTIFIED BY \"newpass123\" REPLACE \"oldpass456\";".data ++
        '\n' :: "SELECT 1;".data := by decide
  rw [heq, h]
  decide

/-- C6 (amended): `derive_default_name` returns the empty string when no
source is set; otherwise it is `stem ++ "_" ++ yyyy_mm_dd ++ ext` where
`(stem, ext)` splits the source's base filename at the last dot — except
that when every character before the last dot is itself a dot (hidden
files such as `.bashrc`), the extension is empty and the stem is the
whole basename; a filename with no dot also yields an empty extension. -/
theorem c6_default_output_name_amended :
    (∀ (cfg : FileProcessorConfig) (y m d : Nat), cfg.source_file_path = [] →
      get_default_output_name cfg y m d = []) ∧
    (∀ (cfg : FileProcessorConfig) (y m d : Nat), cfg.source_file_path ≠ [] →
      get_default_output_name cfg y m d =
        (pySplitext (pyBasename cfg.source_file_path)).1 ++
          '_' :: (fmtDate y m d ++ (pySplitext (pyBasename cfg.source_file_path)).2)) ∧
    (∀ b : List Char, '.' ∉ b → pySplitext b = (b, [])) ∧
    (∀ stem ext : List Char, '.' ∉ ext → (∃ c ∈ stem, c ≠ '.') →
      pySplitext (stem ++ '.' :: ext) = (stem, '.' :: ext)) ∧
    (∀ stem ext : List Char, '.' ∉ ext → (∀ c ∈ stem, c = '.') →
      pySplitext (stem ++ '.' :: ext) = (stem ++ '.' :: ext, [])) := by
  refine ⟨?_, ?_, pySplitext_no_dot, pySplitext_split, pySplitext_all_dots⟩
  · intro cfg y m d h
    unfold get_default_output_name
    rw [if_pos h]
  · intro cfg y m d h
    unfold get_default_output_name
    rw [if_neg h]

/-- Witness for C6 (amended) at the specification's two examples. -/
theorem c6_default_output_name_amended_witness :
    get_default_output_name
      { defaultFileProcessorConfig with source_file_path := "/tmp/sample_00.txt".data }
      2025 7 28 = "sample_00_2025_07_28.txt".data ∧
    get_default_output_name
      { defaultFileProcessorConfig with source_file_path := "README".data }
      2025 7 28 = "README_2025_07_28".data := by
  constructor
  · have h := c6_default_output_name_amended.2.1
      { defaultFileProcessorConfig with source_file_path := "/tmp/sample_00.txt".data }
      2025 7 28 (by decide)
    rw [h]; decide
  · have h := c6_default_output_name_amended.2.1
      { defaultFileProcessorConfig with source_file_path := "README".data }
      2025 7 28 (by decide)
    rw [h]; decide

/-- Counterexample for C6 as stated: on the source path `/home/u/.bashrc`
(processed on 2025-07-28) the code returns `.bashrc_2025_07_28`, whereas
splitting the basename at the last dot unconditionally — as the claim
prescribes for every source path — would give an empty stem and extension
`.bashrc`, hence `_2025_07_28.bashrc`. -/
theorem c6_counterexample :
    get_default_output_name
      { defaultFileProcessorConfig with source_file_path := "/home/u/.bashrc".data }
      2025 7 28 = ".bashrc_2025_07_28".data ∧
    (splitextLastDotClaim (pyBasename "/home/u/.bashrc".data)).1 ++
      '_' :: (fmtDate 2025 7 28 ++
        (splitextLastDotClaim (pyBasename "/home/u/.bashrc".data)).2) =
      "_2025_07_28.bashrc".data ∧
    (".bashrc_2025_07_28".data : List Char) ≠ "_2025_07_28.bashrc".data :=
  ⟨by decide, by decide, by decide⟩

/-- C4: on a configured processor, `process_file` writes the content with
every non-overlapping literal occurrence of `find_text` replaced by
`replace_text` in a leftmost-first scan when `find_text` is non-empty
(characterised by: content without an occurrence passes through
unchanged, and the leftmost occurrence is rewritten with the scan
resuming after it), and writes the content unchanged when `find_text` is
empty, regardless of `replace_text`. -/
theorem c4_process_file_replacement (cfg : FileProcessorConfig) (content : List Char)
    (hsrc : cfg.source_file_path ≠ []) (hout : cfg.output_file_name ≠ []) :
    ∃ out, process_file cfg content = Except.ok (outputPath cfg, out) ∧
      (cfg.find_text = [] → out = content) ∧
      (cfg.find_text ≠ [] → ¬ cfg.find_text <:+: content → out = content) ∧
      (∀ a b : List Char, cfg.find_text ≠ [] → content = a ++ cfg.find_text ++ b →
        (∀ i < a.length, cfg.find_text.isPrefixOf (content.drop i) = false) →
        out = a ++ cfg.replace_text ++ pyReplace b cfg.find_text cfg.replace_text) := by
  refine ⟨if cfg.find_text = [] then content
      else pyReplace content cfg.find_text cfg.replace_text, ?_, ?_, ?_, ?_⟩
  · unfold process_file
    rw [if_neg hsrc, if_neg hout]
  · intro h
    rw [if_pos h]
  · intro h hninf
    rw [if_neg h]
    exact pyReplace_no_occurrence content cfg.find_text cfg.replace_text h hninf
  · intro a b h hdec hleft
    rw [if_neg h]
    subst hdec
    exact pyReplace_leftmost cfg.find_text cfg.replace_text a b h hleft


/-- Witness for C4: find `aa`, replace `X`, content `aaa`; the two `a`s
are consumed by one leftmost match, so the output is `Xa`. -/
theorem c4_process_file_replacement_witness :
    process_file
      { defaultFileProcessorConfig with
        source_file_path := "/d/s.txt".data
        output_file_name := "o.txt".data
        find_text := "aa".data
        replace_text := "X".data } "aaa".data =
      Except.ok (outputPath
        { defaultFileProcessorConfig with
          source_file_path := "/d/s.txt".data
          output_file_name := "o.txt".data
          find_text := "aa".data
          replace_text := "X".data }, "Xa".data) := by
  obtain ⟨out, h1, _, _, h4⟩ := c4_process_file_replacement
    { defaultFileProcessorConfig with
      source_file_path := "/d/s.txt".data
      output_file_name := "o.txt".data
      find_text := "aa".data
      replace_text := "X".data } "aaa".data (by decide) (by decide)
  have hout : out = "Xa".data := by
    rw [h4 [] "a".data (by decide) (by decide) (by decide)]
    decide
  rw [h1, hout]

/-- C2 (amended): on the rotation happy path the output content is
obtained by exactly two sequential whole-content literal substitutions in
this order — first `new_password ↦ secret`, then
`current_password ↦ new_password`.  The claimed net effect (every
occurrence of the old current value becomes the old new value, every
occurrence of the old new value becomes the fresh secret) holds for any
number of occurrences of the two passwords, in any order: the content is
given as a decomposition `rotJoin n c x0 ps` listing the occurrences
(`true` marks a new-password occurrence, `false` a current-password one),
and the two hypotheses say the listed occurrences are the only ones —
`honly1`: the new password occurs in the content only at the marked
places; `honly2`: the current password occurs in the step-1 result only
at its marked places, which is the side condition the counterexample
forces (in particular, the substituted secret must not contain or form
the current password).  Without it the second substitution also rewrites
text produced by the first. -/
theorem c2_rotation_net_effect_amended (cfg : FileProcessorConfig)
    (u l d : Bool) (draw : Nat → Nat)
    (content x0 n c g : List Char) (ps : List (Bool × List Char))
    (hsrc : cfg.source_file_path ≠ []) (hout : cfg.output_file_name ≠ [])
    (hex : extract_db_passwords_from_first_line content = (some n, some c))
    (hgen : generate_random_string cfg (some cfg.max_random_length) u l d draw =
      Except.ok g)
    (hdec : content = rotJoin n c x0 ps)
    (honly1 : onlyOccsB n (groupTrue c x0 ps).1 (groupTrue c x0 ps).2 = true)
    (honly2 : onlyOccsB c (groupTrue g x0 (ps.map (fun p => (!p.1, p.2)))).1
        (groupTrue g x0 (ps.map (fun p => (!p.1, p.2)))).2 = true) :
    process_db_password_file cfg u l d draw content =
      Except.ok (outputPath cfg, pyReplace (pyReplace content n g) c n) ∧
    pyReplace (pyReplace content n g) c n = rotJoin g n x0 ps := by
  have hne : n ≠ [] := (extract_fst_sound content n (by rw [hex])).1
  have hce : c ≠ [] := (extract_snd_sound content c (by rw [hex])).1
  refine ⟨process_db_password_file_ok cfg u l d draw content n c g hsrc hout hex hgen, ?_⟩
  have step1 : pyReplace content n g = rotJoin g c x0 ps := by
    rw [hdec, ← occJoin_groupTrue n c ps x0,
      pyReplace_occJoin n g hne _ _ honly1]
    exact occJoin_groupTrue g c ps x0
  have step2 : pyReplace (rotJoin g c x0 ps) c n = rotJoin g n x0 ps := by
    rw [← rotJoin_negMap c g x0 ps,
      ← occJoin_groupTrue c g (ps.map (fun p => (!p.1, p.2))) x0,
      pyReplace_occJoin c n hce _ _ honly2,
      occJoin_groupTrue n g (ps.map (fun p => (!p.1, p.2))) x0]
    exact rotJoin_negMap n g x0 ps
  rw [step1, step2]

/-- Witness for C2 (amended), at the specification's end-to-end scenario:
both passwords appear on the first line and again on a later line (two
occurrences of each, interleaved), the generated secret is `11111`, and
the net effect holds at all four occurrences. -/
theorem c2_rotation_net_effect_amended_witness :
    process_db_password_file
      { defaultFileProcessorConfig with
        source_file_path := "/d/s.sql".data
        output_file_name := "o.sql".data
        max_random_length := 5 } false false true (fun _ => 1)
      "BY \"newpass123\" REPLACE \"oldpass456\";\nnewpass123 oldpass456".data =
      Except.ok (outputPath
        { defaultFileProcessorConfig with
          source_file_path := "/d/s.sql".data
          output_file_name := "o.sql".data
          max_random_length := 5 },
        "BY \"11111\" REPLACE \"newpass123\";\n11111 newpass123".data) ∧
    pyReplace (pyReplace
        "BY \"newpass123\" REPLACE \"oldpass456\";\nnewpass123 oldpass456".data
        "newpass123".data "11111".data) "oldpass456".data "newpass123".data =
      "BY \"11111\" REPLACE \"newpass123\";\n11111 newpass123".data := by
  obtain ⟨h1, h2⟩ := c2_rotation_net_effect_amended
    { defaultFileProcessorConfig with
      source_file_path := "/d/s.sql".data
      output_file_name := "o.sql".data
      max_random_length := 5 } false false true (fun _ => 1)
    "BY \"newpass123\" REPLACE \"oldpass456\";\nnewpass123 oldpass456".data
    "BY \"".data "newpass123".data "oldpass456".data "11111".data
    [(true, "\" REPLACE \"".data), (false, "\";\n".data),
      (true, " ".data), (false, [])]
    (by decide) (by decide) (by decide) (by rfl) (by decide) (by decide)
    (by decide)
  constructor
  · rw [h1]
    rfl
  · rw [h2]
    decide

/-- Counterexample for C2 as stated: with first line `BY "n" REPLACE "c"`
and body `n`, the extracted passwords are `n` (new) and `c` (current) and
the generated secret is `c` (lowercase alphabet, draw 2, length 1).  The
claim's universal net effect — every occurrence of the old current value
`c` becomes the old new value `n`, every occurrence of the old new value
`n` becomes the secret `c`, i.e. the character map in the last conjunct —
predicts `BY "c" REPLACE "n"` with body `c`; the code instead produces
`BY "n" REPLACE "n"` with body `n`, because the second substitution also
rewrites the secret written by the first. -/
theorem c2_counterexample :
    process_db_password_file
      { defaultFileProcessorConfig with
        source_file_path := "/d/s.sql".data
        output_file_name := "o.sql".data
        max_random_length := 1 } false true false (fun _ => 2)
      "BY \"n\" REPLACE \"c\"\nn".data =
      Except.ok (outputPath
        { defaultFileProcessorConfig with
          source_file_path := "/d/s.sql".data
          output_file_name := "o.sql".data
          max_random_length := 1 }, "BY \"n\" REPLACE \"n\"\nn".data) ∧
    extract_db_passwords_from_first_line "BY \"n\" REPLACE \"c\"\nn".data =
      (some ['n'], some ['c']) ∧
    generate_random_string
      { defaultFileProcessorConfig with
        source_file_path := "/d/s.sql".data
        output_file_name := "o.sql".data
        max_random_length := 1 } (some 1) false true false (fun _ => 2) =
      Except.ok ['c'] ∧
    ("BY \"n\" REPLACE \"n\"\nn".data : List Char) ≠
      "BY \"n\" REPLACE \"c\"\nn".data.map
        (fun ch => if ch = 'c' then 'n' else if ch = 'n' then 'c' else ch) :=
  ⟨by rfl, by decide, by rfl, by decide⟩

/-- C1 (code bug): the claim — mirrored by `MainController.process_file`
and by the `pre_generated_password` tests — says a caller-supplied secret
that is non-empty after trimming is used verbatim and no generation
occurs.  The model method `process_db_password_file` accepts no such
parameter (calling it with `pre_generated_password=...`, as the
controller and the tests do, raises `TypeError` in Python), and on every
successful run the next secret is the one produced by
`generate_random_string`: the output is always the two substitutions with
the freshly generated `g`. -/
theorem c1_rotation_always_generates (cfg : FileProcessorConfig)
    (u l d : Bool) (draw : Nat → Nat) (content n c g : List Char)
    (hsrc : cfg.source_file_path ≠ []) (hout : cfg.output_file_name ≠ [])
    (hex : extract_db_passwords_from_first_line content = (some n, some c))
    (hgen : generate_random_string cfg (some cfg.max_random_length) u l d draw =
      Except.ok g) :
    process_db_password_file cfg u l d draw content =
      Except.ok (outputPath cfg, pyReplace (pyReplace content n g) c n) :=
  process_db_password_file_ok cfg u l d draw content n c g hsrc hout hex hgen

/-- Witness for C1: digits-only generation of length 2 with constant
draw 3 produces `33`, which lands where `new` stood. -/
theorem c1_rotation_always_generates_witness :
    process_db_password_file
      { defaultFileProcessorConfig with
        source_file_path := "/d/x.sql".data
        output_file_name := "y.sql".data
        max_random_length := 2 } false false true (fun _ => 3)
      "BY \"new\" REPLACE \"old\"\nnew old".data =
      Except.ok (outputPath
        { defaultFileProcessorConfig with
          source_file_path := "/d/x.sql".data
          output_file_name := "y.sql".data
          max_random_length := 2 }, "BY \"33\" REPLACE \"new\"\n33 new".data) := by
  have h := c1_rotation_always_generates
    { defaultFileProcessorConfig with
      source_file_path := "/d/x.sql".data
      output_file_name := "y.sql".data
      max_random_length := 2 } false false true (fun _ => 3)
    "BY \"new\" REPLACE \"old\"\nnew old".data
    "new".data "old".data "33".data
    (by decide) (by decide) (by decide) (by rfl)
  rw [h]
  rfl
